import Mathlib

/-!
Verification of the RAJA kernel statement-execution core against its
specification.  The development shallowly embeds:

  * the sequential reduction protocol (`detail::init` / `detail::combine` /
    `detail::resolve` from `new_reduce/sequential/reduce.hpp`);
  * the argument-descriptor normalizer and extractor
    (`pattern/kernel/ArgHelper.hpp`);
  * the HIP `ForICount` statement executors
    (`policy/hip/kernel/ForICount.hpp`);
  * the fused-multiply-add expression node
    (`pattern/tensor/internal/ET/TensorMultiplyAdd.hpp`).

Machine integers (`diff_t`, a signed difference type) are embedded as `Int`;
segment lengths and descriptor ids are embedded as `Nat` where the source
only ever produces non-negative values.  Stateful C++ is embedded by explicit
state passing on record types; a member function that writes no state returns
its state argument unchanged.
-/

/-! ## Sequential reduction protocol (new_reduce/sequential/reduce.hpp)

`Reducer<OP,T>` holds a working value `val` and a pointer `target` to the
externally visible accumulator.  The pointed-to accumulator `*target` is
embedded as the field `target` of the record; the reduction operator `OP` and
its identity are passed explicitly. -/

structure Reducer (T : Type) where
  val : T
  target : T
deriving DecidableEq, Repr

namespace detail

/-- `init(red)`: `red.val = Reducer<OP,T>::op::identity()`. -/
def init {T : Type} (identity : T) (red : Reducer T) : Reducer T :=
  { red with val := identity }

/-- `combine(out, in)`: `out.val = op{}(out.val, in.val)`; `in` is taken by
const reference, so the call returns the updated `out` together with the
unchanged `in`. -/
def combine {T : Type} (op : T → T → T) (out inr : Reducer T) :
    Reducer T × Reducer T :=
  ({ out with val := op out.val inr.val }, inr)

/-- `resolve(red)`: `*red.target = OP{}(red.val, *red.target)`. -/
def resolve {T : Type} (op : T → T → T) (red : Reducer T) : Reducer T :=
  { red with target := op red.val red.target }

end detail

/-! ## Argument descriptors and their normalization
(pattern/kernel/ArgHelper.hpp)

`Seg<id>`, `OffSet<id>`, `Param<id>` are the single descriptors;
`SegList<ids...>`, `OffSetList<ids...>`, `ParamList<ids...>` the
list-descriptors.  A compile-time template-argument pack is embedded as a
`List`. -/

inductive ArgDesc where
  | Seg (id : Nat)
  | OffSet (id : Nat)
  | Param (id : Nat)
deriving DecidableEq, Repr

inductive ArgItem where
  | seg (id : Nat)
  | offset (id : Nat)
  | param (id : Nat)
  | segList (ids : List Nat)
  | offsetList (ids : List Nat)
  | paramList (ids : List Nat)
deriving DecidableEq, Repr

/-- `catList<ListA,ListB>::makeList`: concatenation of two descriptor
sequences, the second appended after the first. -/
def catList (a b : List ArgDesc) : List ArgDesc := a ++ b

/-- `listMaker<SegList<head,tail...>>::genList`: `Seg<head>` concatenated
before the expansion of the tail; the empty pack falls back to the primary
`listMaker` template, which yields the empty list. -/
def listMakerSegList : List Nat → List ArgDesc
  | [] => []
  | head :: tail => catList [ArgDesc.Seg head] (listMakerSegList tail)

/-- `listMaker<OffSetList<head,tail...>>::genList`. -/
def listMakerOffSetList : List Nat → List ArgDesc
  | [] => []
  | head :: tail => catList [ArgDesc.OffSet head] (listMakerOffSetList tail)

/-- `listMaker<ParamList<head,tail...>>::genList`. -/
def listMakerParamList : List Nat → List ArgDesc
  | [] => []
  | head :: tail => catList [ArgDesc.Param head] (listMakerParamList tail)

/-- `listMaker<Arg>::genList` for each specialization: a single descriptor
maps to the singleton list, a list-descriptor to its recursive expansion. -/
def listMaker : ArgItem → List ArgDesc
  | .seg id => [ArgDesc.Seg id]
  | .offset id => [ArgDesc.OffSet id]
  | .param id => [ArgDesc.Param id]
  | .segList ids => listMakerSegList ids
  | .offsetList ids => listMakerOffSetList ids
  | .paramList ids => listMakerParamList ids

/-- `parser<camp::list<...>>::checkArgs`: the empty list parses to the empty
sequence; `parser<list<Head,Tail...>>` concatenates `listMaker<Head>` before
the parse of the tail. -/
def parser : List ArgItem → List ArgDesc
  | [] => []
  | head :: tail => catList (listMaker head) (parser tail)

/-- Spec-side description of normalization (§4.1 of the spec): each
list-descriptor is replaced in place by its element descriptors in element
order, each single descriptor stays; the result is the flattening.  Stated
separately from `parser`/`listMaker` (which are embedded from the source) so
that the two can be compared. -/
def specExpandItem : ArgItem → List ArgDesc
  | .seg id => [ArgDesc.Seg id]
  | .offset id => [ArgDesc.OffSet id]
  | .param id => [ArgDesc.Param id]
  | .segList ids => ids.map ArgDesc.Seg
  | .offsetList ids => ids.map ArgDesc.OffSet
  | .paramList ids => ids.map ArgDesc.Param

/-! ## Argument extraction (pattern/kernel/ArgHelper.hpp)

The execution context `Data` aggregates the segment tuple, the offset tuple
and the parameter tuple.  Tuples indexed by compile-time ids are embedded as
total functions from `Nat`; a segment is embedded by its value map
`position ↦ value` (the source reads `segment.begin()[offset]`).  Values are
`Int`.

Every `extract_arg` returns `decltype(camp::get<id>(...))`, an lvalue
reference into the context; a reference is embedded as a location `Loc`
together with read and write maps on `Data`. -/

structure Data where
  segment_tuple : Nat → Int → Int
  offset_tuple : Nat → Int
  param_tuple : Nat → Int

inductive Loc where
  | offset (id : Nat)
  | segAt (id : Nat) (pos : Int)
  | param (id : Nat)
deriving DecidableEq, Repr

/-- Reading through a reference into the context. -/
def readLoc (data : Data) : Loc → Int
  | .offset id => data.offset_tuple id
  | .segAt id pos => data.segment_tuple id pos
  | .param id => data.param_tuple id

/-- Writing through a reference into the context. -/
def writeLoc (data : Data) : Loc → Int → Data
  | .offset id, v =>
    { data with offset_tuple := fun j => if j = id then v else data.offset_tuple j }
  | .segAt id pos, v =>
    { data with segment_tuple := fun j p =>
        if j = id ∧ p = pos then v else data.segment_tuple j p }
  | .param id, v =>
    { data with param_tuple := fun j => if j = id then v else data.param_tuple j }

/-- `extractor<Desc>::extract_arg(data)`:
`OffSet<id>` returns `camp::get<id>(data.offset_tuple)`;
`Seg<id>` returns
`camp::get<id>(data.segment_tuple).begin()[camp::get<id>(data.offset_tuple)]`;
`Param<id>` returns `camp::get<id>(data.param_tuple)`.
Each body is a single read, so the state comes back unchanged. -/
def extract_arg (data : Data) : ArgDesc → Loc × Data
  | .OffSet id => (Loc.offset id, data)
  | .Seg id => (Loc.segAt id (data.offset_tuple id), data)
  | .Param id => (Loc.param id, data)

/-- Modelled from the spec: `camp::make_tuple` (the camp library is not part
of this repository) builds the positional argument tuple for
`call_extractor<list<Args...>>::make_tuple`, invoking
`extractor<Args>::extract_arg(data)` once per descriptor in order and
passing each extracted reference through into the tuple ("returned as a
mutable reference, not a copy"). -/
def make_tuple (data : Data) : List ArgDesc → List Loc × Data
  | [] => ([], data)
  | a :: rest =>
    let (l, data1) := extract_arg data a
    let (ls, data2) := make_tuple data1 rest
    (l :: ls, data2)

/-! ## Helper lemmas about normalization and extraction -/

lemma listMakerSegList_eq_map (ids : List Nat) :
    listMakerSegList ids = ids.map ArgDesc.Seg := by
  induction ids with
  | nil => rfl
  | cons head tail ih => simp [listMakerSegList, catList, ih]

lemma listMakerOffSetList_eq_map (ids : List Nat) :
    listMakerOffSetList ids = ids.map ArgDesc.OffSet := by
  induction ids with
  | nil => rfl
  | cons head tail ih => simp [listMakerOffSetList, catList, ih]

lemma listMakerParamList_eq_map (ids : List Nat) :
    listMakerParamList ids = ids.map ArgDesc.Param := by
  induction ids with
  | nil => rfl
  | cons head tail ih => simp [listMakerParamList, catList, ih]

lemma listMaker_eq_specExpandItem (item : ArgItem) :
    listMaker item = specExpandItem item := by
  cases item with
  | seg id => rfl
  | offset id => rfl
  | param id => rfl
  | segList ids => simpa [listMaker, specExpandItem] using listMakerSegList_eq_map ids
  | offsetList ids => simpa [listMaker, specExpandItem] using listMakerOffSetList_eq_map ids
  | paramList ids => simpa [listMaker, specExpandItem] using listMakerParamList_eq_map ids

lemma parser_eq_flatten (items : List ArgItem) :
    parser items = (items.map specExpandItem).flatten := by
  induction items with
  | nil => rfl
  | cons head tail ih =>
      simp [parser, catList, ih, listMaker_eq_specExpandItem]

lemma extract_arg_state (data : Data) (a : ArgDesc) :
    (extract_arg data a).2 = data := by
  cases a <;> rfl

lemma make_tuple_eq (data : Data) (args : List ArgDesc) :
    make_tuple data args = (args.map fun a => (extract_arg data a).1, data) := by
  induction args with
  | nil => rfl
  | cons a rest ih =>
      cases a <;> simp [make_tuple, extract_arg, ih]

/-- Concrete execution context used in witnesses: segment `i` maps position
`p` to `100 * (i + 1) + p`, the offset for dimension `i` is `i`, and
parameter slot `i` holds `1000 + i`. -/
def exampleData : Data where
  segment_tuple := fun i p => 100 * ((i : Int) + 1) + p
  offset_tuple := fun i => (i : Int)
  param_tuple := fun i => 1000 + (i : Int)

/-! ## HIP ForICount statement executors (policy/hip/kernel/ForICount.hpp)

The execution context threaded through the executors is embedded as
`KernelData`: per-dimension segment lengths, the offset slots and the
parameter slots (indexed by `ArgumentId` resp. `ParamId`).  `diff_t` values
are `Int`.  An executor's call of `enclosed_stmts_t::exec(data, flag)` is
embedded by returning (or recording in a trace) the context and the flag
that the enclosed statements receive. -/

structure KernelData where
  seglen : Nat → Int
  offsets : Nat → Int
  params : Nat → Int

/-- `segment_length<ArgumentId>(data)`. -/
def segment_length (argumentId : Nat) (data : KernelData) : Int :=
  data.seglen argumentId

/-- `data.template assign_offset<ArgumentId>(i)`. -/
def assign_offset (argumentId : Nat) (i : Int) (data : KernelData) : KernelData :=
  { data with offsets := fun j => if j = argumentId then i else data.offsets j }

/-- `data.template assign_param<ParamId>(i)`. -/
def assign_param (paramId : Nat) (i : Int) (data : KernelData) : KernelData :=
  { data with params := fun j => if j = paramId then i else data.params j }

/-- `HipStatementExecutor<ForICount<ArgumentId, ParamId, hip_warp_direct>>::exec`:
`len = segment_length<ArgumentId>(data)`, `i = get_hip_dim<0>(threadIdx)`;
the thread id is assigned directly to the offset and the parameter, and the
enclosed statements run with `thread_active && (i < len)`.  Returns the
context and the active flag handed to `enclosed_stmts_t::exec`. -/
def warpDirectExec (argumentId paramId : Nat) (data : KernelData)
    (thread_active : Bool) (threadIdx_x : Int) : KernelData × Bool :=
  let len := segment_length argumentId data
  let i := threadIdx_x
  let data1 := assign_offset argumentId i data
  let data2 := assign_param paramId i data1
  (data2, thread_active && decide (i < len))

/-- `HipStatementExecutor<ForICount<ArgumentId, ParamId,
hip_warp_masked_direct<Mask>>>::exec` (the same body as the
`hip_thread_masked_direct` executor): `i = mask_t::maskValue(threadIdx.x)`
is assigned to the offset and the parameter, and the enclosed statements run
with `thread_active && (i < len)`.  `mask_t::maskValue` is passed as the
function `maskValue` (the `BitMask` type lives outside this core). -/
def warpMaskedDirectExec (maskValue : Int → Int) (argumentId paramId : Nat)
    (data : KernelData) (thread_active : Bool) (threadIdx_x : Int) :
    KernelData × Bool :=
  let len := segment_length argumentId data
  let i := maskValue threadIdx_x
  let data1 := assign_offset argumentId i data
  let data2 := assign_param paramId i data1
  (data2, thread_active && decide (i < len))

/-- The strided loop shared by `hip_warp_loop` (stride
`RAJA::policy::hip::WARP_SIZE`, initial index `threadIdx.x`), the masked
loops (stride `mask_t::max_masked_size`, initial index
`mask_t::maskValue(threadIdx.x)`) and `HipIndexLoop` (stride
`Indexer::size()`): `for (ii = 0; ii < len; ii += i_stride)` with
`i = ii + i_init` and `have_work = i < len`; per iteration it records the
index assigned to the offset and parameter slots together with `have_work`
(the flag handed to the enclosed statements when `thread_active` holds).
All quantities are non-negative `diff_t` values, embedded as `Nat`; every
stride the source instantiates is positive, and positivity appears in the
guard only so that termination of the embedding is manifest. -/
def warpLoopTraceGo (len stride i_init ii : Nat) : List (Nat × Bool) :=
  if _h : 0 < stride ∧ ii < len then
    (ii + i_init, decide (ii + i_init < len)) ::
      warpLoopTraceGo len stride i_init (ii + stride)
  else []
termination_by len - ii
decreasing_by omega

/-- The full strided pass of one execution unit with initial index `i_init`. -/
def warpLoopTrace (len stride i_init : Nat) : List (Nat × Bool) :=
  warpLoopTraceGo len stride i_init 0

/-- The indices a unit visits with `have_work` true. -/
def activeVisits (len stride i_init : Nat) : List Nat :=
  ((warpLoopTrace len stride i_init).filter (fun e => e.2)).map (fun e => e.1)

/-- The active visits of all units with initial indices `0 .. stride-1`,
in unit order. -/
def allActiveVisits (len stride : Nat) : List Nat :=
  ((List.range stride).map (fun u => activeVisits len stride u)).flatten

/-- `HipStatementExecutor<ForICount<ArgumentId, ParamId,
hip_warp_masked_loop<Mask>>>::exec` (the same body as the
`hip_thread_masked_loop` executor): the strided pass with
`i_init = mask_t::maskValue(threadIdx.x)` and
`i_stride = mask_t::max_masked_size`. -/
def warpMaskedLoopExec (maskValue : Int → Int) (max_masked_size : Nat)
    (len : Nat) (threadIdx_x : Int) : List (Nat × Bool) :=
  warpLoopTraceGo len max_masked_size (maskValue threadIdx_x).toNat 0

/-- The `static_assert` guarding the `hip_warp_masked_direct` `ForICount`
executor: `static_assert(mask_t::max_masked_size <=
RAJA::policy::hip::WARP_SIZE, "BitMask is too large for HIP warp size")`.
Template instantiation — the point where the mask policy is bound to the
hardware warp width — is embedded as an `Except`: it either fails at build
time with the assertion's message or yields the executor; there is no
runtime check left in the executor itself. -/
def instantiateWarpMaskedDirect (maskValue : Int → Int)
    (max_masked_size warpSize : Nat) (argumentId paramId : Nat) :
    Except String (KernelData → Bool → Int → KernelData × Bool) :=
  if max_masked_size ≤ warpSize then
    Except.ok (warpMaskedDirectExec maskValue argumentId paramId)
  else
    Except.error "BitMask is too large for HIP warp size"

/-- The identical `static_assert` guarding the `hip_warp_masked_loop`
`ForICount` executor. -/
def instantiateWarpMaskedLoop (maskValue : Int → Int)
    (max_masked_size warpSize : Nat) :
    Except String (Nat → Int → List (Nat × Bool)) :=
  if max_masked_size ≤ warpSize then
    Except.ok (warpMaskedLoopExec maskValue max_masked_size)
  else
    Except.error "BitMask is too large for HIP warp size"

/-- Modelled from the spec: the build-time gate of the
`hip_thread_masked_direct` `ForICount` executor.  That executor's own body
(in this file) declares no assertion; its base `For` executor lives outside
src/.  The spec prescribes for every masked warp/thread policy a build-time
assertion, with a descriptive message, that the mask's maximum masked size
not exceed the hardware width, checked where the mask policy is bound to
the width. -/
def instantiateThreadMaskedDirect (maskValue : Int → Int)
    (max_masked_size warpSize : Nat) (argumentId paramId : Nat) :
    Except String (KernelData → Bool → Int → KernelData × Bool) :=
  if max_masked_size ≤ warpSize then
    Except.ok (warpMaskedDirectExec maskValue argumentId paramId)
  else
    Except.error "BitMask is too large for HIP warp size"

/-- Modelled from the spec: the build-time gate of the
`hip_thread_masked_loop` `ForICount` executor (see
`instantiateThreadMaskedDirect`). -/
def instantiateThreadMaskedLoop (maskValue : Int → Int)
    (max_masked_size warpSize : Nat) :
    Except String (Nat → Int → List (Nat × Bool)) :=
  if max_masked_size ≤ warpSize then
    Except.ok (warpMaskedLoopExec maskValue max_masked_size)
  else
    Except.error "BitMask is too large for HIP warp size"

/-- `HipStatementExecutor<ForICount<ArgumentId, ParamId, seq_exec>>::exec`,
the body of `for (i = 0; i < len; ++i)` from loop counter `i` upward: each
iteration assigns `i` to the offset and to the parameter and then invokes
the enclosed statements with the unchanged `thread_active`; the trace
records, in execution order, the context and the flag each invocation
receives. -/
def seqForICountGo (argumentId paramId : Nat) (thread_active : Bool)
    (len : Nat) (data : KernelData) (i : Nat) :
    KernelData × List (KernelData × Bool) :=
  if _h : i < len then
    let data1 := assign_offset argumentId (i : Int) data
    let data2 := assign_param paramId (i : Int) data1
    let rest := seqForICountGo argumentId paramId thread_active len data2 (i + 1)
    (rest.1, (data2, thread_active) :: rest.2)
  else (data, [])
termination_by len - i
decreasing_by omega

/-- The sequential-policy `ForICount` executor: the loop runs from 0 with
`len = segment_length<ArgumentId>(data)` (no iterations when `len ≤ 0`). -/
def seqForICountExec (argumentId paramId : Nat) (data : KernelData)
    (thread_active : Bool) : KernelData × List (KernelData × Bool) :=
  seqForICountGo argumentId paramId thread_active
    (segment_length argumentId data).toNat data 0

/-- A context whose every segment is empty (`len = 0` everywhere), used in
witnesses. -/
def emptyKernelData : KernelData := ⟨fun _ => 0, fun _ => 0, fun _ => 0⟩

/-- A context whose every segment has length 1, used in witnesses and
counterexamples. -/
def oneKernelData : KernelData := ⟨fun _ => 1, fun _ => 0, fun _ => 0⟩

/-! ## Fused multiply-add expression node
(pattern/tensor/internal/ET/TensorMultiplyAdd.hpp)

Operands are already-elaborated sub-expressions; an operand is embedded by
what `eval` needs of it, its evaluation map `tile ↦ value`. -/

structure TensorMultiplyAdd (α : Type) where
  m_left_operand : α
  m_right_operand : α
  m_add_operand : α

/-- `TensorMultiplyAdd::eval(tile)`: a single call of
`multiply_op::multiply_add(tile, m_left_operand, m_right_operand,
m_add_operand)` on the stored operands. -/
def TensorMultiplyAdd.eval {α τ β : Type} (multiply_add : τ → α → α → α → β)
    (self : TensorMultiplyAdd α) (tile : τ) : β :=
  multiply_add tile self.m_left_operand self.m_right_operand self.m_add_operand

/-- Modelled from the spec: `MultiplyOperator<LHS,RHS>::multiply_add(tile,
left, right, add)` (MultiplyOperator.hpp is outside src/) computes
`left*right + add` on the operand evaluations at the tile — through the
backend's fused instruction when it has one, and through an unfused
multiply-then-add otherwise; either way it denotes this value. -/
def multiply_add_model {τ : Type} (tile : τ) (l r a : τ → Int) : Int :=
  l tile * r tile + a tile

/-! ## Claim theorems -/

/-- Claim C1: the sequential reduction protocol: `init` sets the working
value to the identity, `combine out in` applies the operator to
`(out.val, in.val)` and leaves `in` unchanged, and `resolve` stores
`op (red.val) (pre-existing *target)` into the target; concretely for
addition with identity 0, reducers with `val` 3 and 5 and a target
initially 10 give `val = 8` after combine and `*target = 18` after
resolve. -/
theorem C1_seq_reduction_protocol :
    (∀ (T : Type) (identity : T) (red : Reducer T),
      (detail.init identity red).val = identity ∧
      (detail.init identity red).target = red.target) ∧
    (∀ (T : Type) (op : T → T → T) (out inr : Reducer T),
      (detail.combine op out inr).1.val = op out.val inr.val ∧
      (detail.combine op out inr).1.target = out.target ∧
      (detail.combine op out inr).2 = inr) ∧
    (∀ (T : Type) (op : T → T → T) (red : Reducer T),
      (detail.resolve op red).target = op red.val red.target ∧
      (detail.resolve op red).val = red.val) ∧
    ((detail.combine (· + ·) (⟨3, 10⟩ : Reducer Nat) ⟨5, 0⟩).1.val = 8 ∧
     (detail.resolve (· + ·)
        (detail.combine (· + ·) (⟨3, 10⟩ : Reducer Nat) ⟨5, 0⟩).1).target = 18) := by
  refine ⟨fun T identity red => ⟨rfl, rfl⟩,
          fun T op out inr => ⟨rfl, rfl, rfl⟩,
          fun T op red => ⟨rfl, rfl⟩, by decide, by decide⟩

/-- Claim C2: the parser flattens any mix of single and list descriptors
into the sequence of single descriptors in which each list-descriptor is
replaced by its element descriptors in element order, preserving
left-to-right source order; the empty input yields the empty sequence; and
extraction over the normalized sequence yields values in exactly the
declared order (`[SegList<0,1>, Param<2>]` yields
`[seg0_val, seg1_val, param2]`). -/
theorem C2_descriptor_normalization :
    (∀ items : List ArgItem, parser items = (items.map specExpandItem).flatten) ∧
    parser [] = [] ∧
    parser [ArgItem.segList [0, 1], ArgItem.param 2] =
      [ArgDesc.Seg 0, ArgDesc.Seg 1, ArgDesc.Param 2] ∧
    ((make_tuple exampleData
        (parser [ArgItem.segList [0, 1], ArgItem.param 2])).1.map
      (readLoc exampleData)) = [100, 201, 1002] := by
  refine ⟨parser_eq_flatten, rfl, rfl, ?_⟩
  norm_num [parser, catList, listMaker, listMakerSegList, make_tuple,
    extract_arg, readLoc, exampleData]

/-- Claim C5: extraction yields, for `OffSet<id>`, the current offset for
dimension `id`; for `Seg<id>`, the segment value at the current offset
(`segment[offset]`); and neither a single extraction nor building the whole
argument tuple mutates the context. -/
theorem C5_argument_extraction :
    ∀ (data : Data) (id : Nat) (args : List ArgDesc),
      (extract_arg data (ArgDesc.OffSet id)).1 = Loc.offset id ∧
      readLoc data (extract_arg data (ArgDesc.OffSet id)).1 =
        data.offset_tuple id ∧
      (extract_arg data (ArgDesc.Seg id)).1 =
        Loc.segAt id (data.offset_tuple id) ∧
      readLoc data (extract_arg data (ArgDesc.Seg id)).1 =
        data.segment_tuple id (data.offset_tuple id) ∧
      (∀ a : ArgDesc, (extract_arg data a).2 = data) ∧
      (make_tuple data args).2 = data := by
  intro data id args
  exact ⟨rfl, rfl, rfl, rfl, extract_arg_state data, by simp [make_tuple_eq]⟩

/-- Claim C6: a `Param<id>` descriptor delivers, at its position in the
argument tuple, a mutable reference to the live parameter slot `id` (not a
copy): reading it gives the slot's value and a write through it is visible
in the context's parameter tuple. -/
theorem C6_param_mutable_reference :
    ∀ (data : Data) (args : List ArgDesc) (j id : Nat) (v : Int),
      args[j]? = some (ArgDesc.Param id) →
      (make_tuple data args).1[j]? = some (Loc.param id) ∧
      readLoc data (Loc.param id) = data.param_tuple id ∧
      (writeLoc data (Loc.param id) v).param_tuple id = v := by
  intro data args j id v h
  refine ⟨?_, rfl, by simp [writeLoc]⟩
  simp [make_tuple_eq, h, extract_arg]

/-- Witness for C6 at the concrete context `exampleData`, argument list
`[Param<2>]`, position 0, written value 42. -/
theorem C6_witness :
    ([ArgDesc.Param 2][0]? = some (ArgDesc.Param 2)) ∧
    ((make_tuple exampleData [ArgDesc.Param 2]).1[0]? = some (Loc.param 2) ∧
     readLoc exampleData (Loc.param 2) = exampleData.param_tuple 2 ∧
     (writeLoc exampleData (Loc.param 2) 42).param_tuple 2 = 42) :=
  ⟨rfl, C6_param_mutable_reference exampleData [ArgDesc.Param 2] 0 2 42 rfl⟩

/-! ## Helper lemmas about the strided loop -/

lemma warpLoopGo_count (len s u : Nat) (hs : 0 < s) :
    ∀ (n ii j : Nat), len - ii ≤ n →
      (((warpLoopTraceGo len s u ii).filter (fun e => e.2)).map (fun e => e.1)).count j
        = if j < len ∧ ii + u ≤ j ∧ s ∣ (j - ii - u) then 1 else 0 := by
  intro n
  induction n with
  | zero =>
    intro ii j hn
    unfold warpLoopTraceGo
    rw [dif_neg (by omega : ¬ (0 < s ∧ ii < len))]
    simp only [List.filter_nil, List.map_nil, List.count_nil]
    rw [if_neg]
    rintro ⟨h1, h2, -⟩
    omega
  | succ n ih =>
    intro ii j hn
    by_cases hii : ii < len
    · unfold warpLoopTraceGo
      rw [dif_pos ⟨hs, hii⟩]
      by_cases hw : ii + u < len
      · rw [List.filter_cons_of_pos (by simpa using hw)]
        rw [List.map_cons, List.count_cons]
        rw [ih (ii + s) j (by omega)]
        by_cases hj : j = ii + u
        · subst hj
          rw [if_neg (show ¬((ii + u : Nat) < len ∧ ii + s + u ≤ ii + u ∧
                s ∣ ii + u - (ii + s) - u) from by rintro ⟨-, h2, -⟩; omega)]
          rw [if_pos (show (ii + u : Nat) < len ∧ ii + u ≤ ii + u ∧
                s ∣ ii + u - ii - u from ⟨hw, le_refl _, by simp⟩)]
          simp
        · have hAB : (j < len ∧ ii + s + u ≤ j ∧ s ∣ j - (ii + s) - u) ↔
              (j < len ∧ ii + u ≤ j ∧ s ∣ j - ii - u) := by
            constructor
            · rintro ⟨h1, h2, h3⟩
              refine ⟨h1, by omega, ?_⟩
              have he : j - ii - u = (j - (ii + s) - u) + s := by omega
              rw [he]
              exact Nat.dvd_add h3 dvd_rfl
            · rintro ⟨h1, h2, h3⟩
              have hd0 : 0 < j - ii - u := by omega
              have hsle : s ≤ j - ii - u := Nat.le_of_dvd hd0 h3
              refine ⟨h1, by omega, ?_⟩
              have he : j - (ii + s) - u = (j - ii - u) - s := by omega
              rw [he]
              exact Nat.dvd_sub' h3 dvd_rfl
          rw [if_congr hAB rfl rfl]
          have hbeq : (ii + u == j) = false := by
            simp only [beq_eq_false_iff_ne, ne_eq]
            omega
          simp [hbeq]
      · rw [List.filter_cons_of_neg (by simpa using hw)]
        rw [ih (ii + s) j (by omega)]
        rw [if_neg, if_neg]
        · rintro ⟨h1, h2, -⟩; omega
        · rintro ⟨h1, h2, -⟩; omega
    · unfold warpLoopTraceGo
      rw [dif_neg (by omega : ¬ (0 < s ∧ ii < len))]
      simp only [List.filter_nil, List.map_nil, List.count_nil]
      rw [if_neg]
      rintro ⟨h1, h2, -⟩
      omega

lemma activeVisits_count (len s u : Nat) (hs : 0 < s) (j : Nat) :
    (activeVisits len s u).count j =
      if j < len ∧ u ≤ j ∧ s ∣ (j - u) then 1 else 0 := by
  have h := warpLoopGo_count len s u hs len 0 j (by omega)
  simpa [activeVisits, warpLoopTrace] using h

lemma sum_indicator_range (s v : Nat) (hv : v < s) :
    (((List.range s).map (fun u => if u = v then (1 : Nat) else 0)).sum) = 1 := by
  induction s with
  | zero => omega
  | succ s ih =>
    rw [List.range_succ, List.map_append, List.sum_append]
    by_cases h : v < s
    · rw [ih h]
      simp [show s ≠ v from by omega]
    · have hv2 : v = s := by omega
      subst hv2
      have h0 : (List.range v).map (fun u => if u = v then (1 : Nat) else 0)
          = (List.range v).map (fun _ => 0) := by
        apply List.map_congr_left
        intro u hu
        rw [List.mem_range] at hu
        rw [if_neg (by omega)]
      rw [h0]
      simp

lemma allActiveVisits_count (len s : Nat) (hs : 0 < s) (j : Nat) :
    (allActiveVisits len s).count j = if j < len then 1 else 0 := by
  unfold allActiveVisits
  rw [List.count_flatten, List.map_map]
  by_cases hj : j < len
  · rw [if_pos hj]
    have hmap : (List.range s).map (List.count j ∘ fun u => activeVisits len s u)
        = (List.range s).map (fun u => if u = j % s then 1 else 0) := by
      apply List.map_congr_left
      intro u hu
      rw [List.mem_range] at hu
      simp only [Function.comp_apply]
      rw [activeVisits_count len s u hs j]
      apply if_congr _ rfl rfl
      constructor
      · rintro ⟨-, h2, h3⟩
        obtain ⟨k, hk⟩ := h3
        have hjk : j = u + s * k := by omega
        rw [hjk, Nat.add_mul_mod_self_left, Nat.mod_eq_of_lt hu]
      · rintro rfl
        refine ⟨hj, Nat.mod_le _ _, ⟨j / s, ?_⟩⟩
        have hdm := Nat.div_add_mod j s
        omega
    rw [hmap]
    exact sum_indicator_range s (j % s) (Nat.mod_lt _ hs)
  · rw [if_neg hj]
    have hmap : (List.range s).map (List.count j ∘ fun u => activeVisits len s u)
        = (List.range s).map (fun _ => 0) := by
      apply List.map_congr_left
      intro u hu
      simp only [Function.comp_apply]
      rw [activeVisits_count len s u hs j]
      rw [if_neg (by rintro ⟨h1, -, -⟩; omega)]
    rw [hmap]
    simp

/-! ## Helper lemmas about the sequential ForICount executor -/

lemma seqGo_length (argumentId paramId : Nat) (ta : Bool) (len : Nat) :
    ∀ (n i : Nat) (data : KernelData), len - i ≤ n →
      ((seqForICountGo argumentId paramId ta len data i).2).length = len - i := by
  intro n
  induction n with
  | zero =>
    intro i data hn
    unfold seqForICountGo
    rw [dif_neg (by omega : ¬ i < len)]
    simp
    omega
  | succ n ih =>
    intro i data hn
    by_cases hi : i < len
    · unfold seqForICountGo
      rw [dif_pos hi]
      simp only [List.length_cons]
      rw [ih (i + 1) _ (by omega)]
      omega
    · unfold seqForICountGo
      rw [dif_neg hi]
      simp
      omega

lemma seqGo_get (argumentId paramId : Nat) (ta : Bool) (len : Nat) :
    ∀ (k i : Nat) (data : KernelData), i + k < len →
      ∃ e, ((seqForICountGo argumentId paramId ta len data i).2)[k]? = some e ∧
        e.1.offsets argumentId = ((i + k : Nat) : Int) ∧
        e.1.params paramId = ((i + k : Nat) : Int) ∧ e.2 = ta := by
  intro k
  induction k with
  | zero =>
    intro i data hik
    have hi : i < len := by omega
    unfold seqForICountGo
    rw [dif_pos hi]
    refine ⟨(assign_param paramId (i : Int) (assign_offset argumentId (i : Int) data), ta),
      by simp, ?_, ?_, rfl⟩
    · simp [assign_param, assign_offset]
    · simp [assign_param, assign_offset]
  | succ k ih =>
    intro i data hik
    have hi : i < len := by omega
    obtain ⟨e, he, h1, h2, h3⟩ := ih (i + 1)
      (assign_param paramId (i : Int) (assign_offset argumentId (i : Int) data)) (by omega)
    have harith : i + 1 + k = i + (k + 1) := by omega
    rw [harith] at h1 h2
    unfold seqForICountGo
    rw [dif_pos hi]
    exact ⟨e, by simpa using he, h1, h2, h3⟩

lemma seqGo_flags (argumentId paramId : Nat) (ta : Bool) (len : Nat) :
    ∀ (n i : Nat) (data : KernelData), len - i ≤ n →
      ∀ e ∈ (seqForICountGo argumentId paramId ta len data i).2, e.2 = ta := by
  intro n
  induction n with
  | zero =>
    intro i data hn e he
    unfold seqForICountGo at he
    rw [dif_neg (by omega : ¬ i < len)] at he
    simp at he
  | succ n ih =>
    intro i data hn e he
    by_cases hi : i < len
    · unfold seqForICountGo at he
      rw [dif_pos hi] at he
      simp only [List.mem_cons] at he
      rcases he with rfl | he
      · rfl
      · exact ih (i + 1) _ (by omega) e he
    · unfold seqForICountGo at he
      rw [dif_neg hi] at he
      simp at he

/-- Claim C3: for a strided (loop) mapping with stride `s ≥ 1` over a
segment of length `len`, the indices at which the enclosed statements are
invoked with `have_work` true, across the units with initial indices
`0 .. s-1`, are exactly `{0, ..., len-1}`, each exactly once; concretely
for `len = 10` and stride 4, unit 0 actively visits `[0,4,8]`, unit 1
`[1,5,9]`, unit 2 `[2,6]`, unit 3 `[3,7]`. -/
theorem C3_strided_loop_coverage :
    (∀ (len s : Nat), 0 < s → ∀ j : Nat,
      (allActiveVisits len s).count j = if j < len then 1 else 0) ∧
    (activeVisits 10 4 0 = [0, 4, 8] ∧ activeVisits 10 4 1 = [1, 5, 9] ∧
     activeVisits 10 4 2 = [2, 6] ∧ activeVisits 10 4 3 = [3, 7]) := by
  refine ⟨fun len s hs j => allActiveVisits_count len s hs j, ?_, ?_, ?_, ?_⟩ <;>
    simp [activeVisits, warpLoopTrace, warpLoopTraceGo]

/-- Witness for C3 at `len = 10`, stride 4, index 7. -/
theorem C3_witness :
    0 < 4 ∧ (allActiveVisits 10 4).count 7 = if 7 < 10 then 1 else 0 :=
  ⟨by decide, C3_strided_loop_coverage.1 10 4 (by decide) 7⟩

/-- Claim C4: a direct-mapped unit with natural index `i` hands the enclosed
statements the active flag `thread_active && (i < len)`; for `len = 0` no
unit is ever active, and an index at or beyond `len` only masks the flag
(the executor is a total function — there is no error path). -/
theorem C4_direct_boundary_masking :
    ∀ (argumentId paramId : Nat) (data : KernelData) (thread_active : Bool)
      (i : Int),
      (warpDirectExec argumentId paramId data thread_active i).2 =
        (thread_active && decide (i < segment_length argumentId data)) ∧
      (0 ≤ i → segment_length argumentId data = 0 →
        (warpDirectExec argumentId paramId data thread_active i).2 = false) ∧
      (segment_length argumentId data ≤ i →
        (warpDirectExec argumentId paramId data thread_active i).2 = false) := by
  intro argumentId paramId data ta i
  refine ⟨rfl, ?_, ?_⟩
  · intro hi hlen
    simp [warpDirectExec,
      show ¬ (i < segment_length argumentId data) from by omega]
  · intro hle
    simp [warpDirectExec,
      show ¬ (i < segment_length argumentId data) from by omega]

/-- Witness for C4 on the all-empty context with thread index 3. -/
theorem C4_witness :
    ((0 : Int) ≤ 3) ∧ segment_length 0 emptyKernelData = 0 ∧
    (warpDirectExec 0 0 emptyKernelData true 3).2 = false :=
  ⟨by norm_num, rfl,
    (C4_direct_boundary_masking 0 0 emptyKernelData true 3).2.1 (by norm_num) rfl⟩

/-- Claim C7: binding a masked warp/thread policy whose mask's maximum
masked size exceeds the hardware warp width is rejected at build time with
the assertion message "BitMask is too large for HIP warp size"; a mask
that fits instantiates the executor, so no check is left for run time. -/
theorem C7_masked_size_build_time_assert :
    ∀ (maskValue : Int → Int) (max_masked_size warpSize argumentId paramId : Nat),
      (warpSize < max_masked_size →
        instantiateWarpMaskedDirect maskValue max_masked_size warpSize
            argumentId paramId =
          Except.error "BitMask is too large for HIP warp size" ∧
        instantiateWarpMaskedLoop maskValue max_masked_size warpSize =
          Except.error "BitMask is too large for HIP warp size" ∧
        instantiateThreadMaskedDirect maskValue max_masked_size warpSize
            argumentId paramId =
          Except.error "BitMask is too large for HIP warp size" ∧
        instantiateThreadMaskedLoop maskValue max_masked_size warpSize =
          Except.error "BitMask is too large for HIP warp size") ∧
      (max_masked_size ≤ warpSize →
        instantiateWarpMaskedDirect maskValue max_masked_size warpSize
            argumentId paramId =
          Except.ok (warpMaskedDirectExec maskValue argumentId paramId) ∧
        instantiateWarpMaskedLoop maskValue max_masked_size warpSize =
          Except.ok (warpMaskedLoopExec maskValue max_masked_size)) := by
  intro maskValue m w argumentId paramId
  constructor
  · intro h
    have hn : ¬ m ≤ w := by omega
    refine ⟨?_, ?_, ?_, ?_⟩ <;>
      simp [instantiateWarpMaskedDirect, instantiateWarpMaskedLoop,
        instantiateThreadMaskedDirect, instantiateThreadMaskedLoop, hn]
  · intro h
    constructor <;>
      simp [instantiateWarpMaskedDirect, instantiateWarpMaskedLoop, h]

/-- Witness for C7: a 128-wide mask against warp width 64 is rejected; a
32-wide mask instantiates. -/
theorem C7_witness :
    ((64 < 128) ∧
      instantiateWarpMaskedDirect (fun x => x) 128 64 0 0 =
        Except.error "BitMask is too large for HIP warp size") ∧
    ((32 ≤ 64) ∧
      instantiateWarpMaskedLoop (fun x => x) 32 64 =
        Except.ok (warpMaskedLoopExec (fun x => x) 32)) :=
  ⟨⟨by decide,
    ((C7_masked_size_build_time_assert (fun x => x) 128 64 0 0).1 (by decide)).1⟩,
   ⟨by decide,
    ((C7_masked_size_build_time_assert (fun x => x) 32 64 0 0).2 (by decide)).2⟩⟩

/-- Claim C8 as stated is false on the code: the sequential `ForICount`
executor passes the incoming `thread_active` flag through unchanged, so
with `thread_active = false` and a length-1 segment the single invocation
of the enclosed statements is not active. -/
theorem C8_counterexample :
    ((seqForICountExec 0 0 oneKernelData false).2.map (fun e => e.2)) = [false] ∧
    ¬ (∀ e ∈ (seqForICountExec 0 0 oneKernelData false).2, e.2 = true) := by
  have hmap : ((seqForICountExec 0 0 oneKernelData false).2.map (fun e => e.2))
      = [false] := by
    simp [seqForICountExec, seqForICountGo, segment_length, oneKernelData]
  refine ⟨hmap, fun hall => ?_⟩
  have hfalse : false ∈
      ((seqForICountExec 0 0 oneKernelData false).2.map (fun e => e.2)) := by
    rw [hmap]
    simp
  obtain ⟨e, he, hfe⟩ := List.mem_map.mp hfalse
  rw [hall e he] at hfe
  simp at hfe

/-- Claim C8 (amended): the sequential-policy `ForICount` executor executes
the full range `[0, len)` in increasing order, exactly once,
unconditionally: the `k`-th invocation of the enclosed statements sees both
the offset slot and the parameter slot set to `k`; the executor never masks
a unit off itself — every invocation receives the unchanged incoming
`thread_active` flag (rather than being invoked as active for every index,
which fails when the incoming flag is false). -/
theorem C8_seq_full_range :
    ∀ (argumentId paramId : Nat) (data : KernelData) (thread_active : Bool),
      (seqForICountExec argumentId paramId data thread_active).2.length =
        (segment_length argumentId data).toNat ∧
      (∀ k : Nat, k < (segment_length argumentId data).toNat →
        ∃ e, (seqForICountExec argumentId paramId data thread_active).2[k]? =
            some e ∧
          e.1.offsets argumentId = (k : Int) ∧
          e.1.params paramId = (k : Int) ∧
          e.2 = thread_active) ∧
      (∀ e ∈ (seqForICountExec argumentId paramId data thread_active).2,
        e.2 = thread_active) := by
  intro argumentId paramId data ta
  refine ⟨?_, ?_, ?_⟩
  · have h := seqGo_length argumentId paramId ta
      (segment_length argumentId data).toNat
      (segment_length argumentId data).toNat 0 data (by omega)
    simpa [seqForICountExec] using h
  · intro k hk
    have h := seqGo_get argumentId paramId ta
      (segment_length argumentId data).toNat k 0 data (by omega)
    simpa [seqForICountExec] using h
  · intro e he
    exact seqGo_flags argumentId paramId ta
      (segment_length argumentId data).toNat
      (segment_length argumentId data).toNat 0 data (by omega) e he

/-- Witness for the amended C8 on a length-1 segment, iteration 0. -/
theorem C8_witness :
    (0 < (segment_length 0 oneKernelData).toNat) ∧
    (∃ e, (seqForICountExec 0 0 oneKernelData true).2[0]? = some e ∧
       e.1.offsets 0 = ((0 : Nat) : Int) ∧
       e.1.params 0 = ((0 : Nat) : Int) ∧ e.2 = true) :=
  ⟨by decide, (C8_seq_full_range 0 0 oneKernelData true).2.1 0 (by decide)⟩

/-- Claim C9: a `TensorMultiplyAdd` node stores its three elaborated
operands unchanged, and `eval(tile)` is exactly one
`multiply_op::multiply_add` call on the stored operands, which computes
`left*right + add`. -/
theorem C9_tensor_multiply_add :
    ∀ (τ : Type) (l r a : τ → Int) (tile : τ),
      ((TensorMultiplyAdd.mk l r a).m_left_operand = l ∧
       (TensorMultiplyAdd.mk l r a).m_right_operand = r ∧
       (TensorMultiplyAdd.mk l r a).m_add_operand = a) ∧
      (∀ (β : Type) (multiply_add : τ → (τ → Int) → (τ → Int) → (τ → Int) → β),
        TensorMultiplyAdd.eval multiply_add (TensorMultiplyAdd.mk l r a) tile =
          multiply_add tile l r a) ∧
      TensorMultiplyAdd.eval (fun t x y z => multiply_add_model t x y z)
          (TensorMultiplyAdd.mk l r a) tile = l tile * r tile + a tile := by
  intro τ l r a tile
  exact ⟨⟨rfl, rfl, rfl⟩, fun β f => rfl, rfl⟩

/-- Claim C10: the direct and masked-direct `ForICount` executors write the
computed unit index into the offset slot for `ArgumentId` and into the
parameter slot for `ParamId` unconditionally — for every incoming
`thread_active` and every index, in or out of bounds — and the two slots
receive the identical value. -/
theorem C10_unconditional_slot_writes :
    ∀ (maskValue : Int → Int) (argumentId paramId : Nat) (data : KernelData)
      (thread_active : Bool) (threadIdx_x : Int),
      ((warpDirectExec argumentId paramId data thread_active threadIdx_x).1.offsets
          argumentId = threadIdx_x ∧
       (warpDirectExec argumentId paramId data thread_active threadIdx_x).1.params
          paramId = threadIdx_x ∧
       (warpDirectExec argumentId paramId data thread_active threadIdx_x).1.offsets
          argumentId =
        (warpDirectExec argumentId paramId data thread_active threadIdx_x).1.params
          paramId) ∧
      ((warpMaskedDirectExec maskValue argumentId paramId data thread_active
          threadIdx_x).1.offsets argumentId = maskValue threadIdx_x ∧
       (warpMaskedDirectExec maskValue argumentId paramId data thread_active
          threadIdx_x).1.params paramId = maskValue threadIdx_x ∧
       (warpMaskedDirectExec maskValue argumentId paramId data thread_active
          threadIdx_x).1.offsets argumentId =
        (warpMaskedDirectExec maskValue argumentId paramId data thread_active
          threadIdx_x).1.params paramId) := by
  intro maskValue argumentId paramId data ta t
  refine ⟨⟨?_, ?_, ?_⟩, ?_, ?_, ?_⟩ <;>
    simp [warpDirectExec, warpMaskedDirectExec, assign_offset, assign_param]
